import Mathlib

/-!
Verification of the zap-encoder repository's buffer/encoder core.

Bytes are modelled as `Nat` values below 256; Go strings and byte slices
are both byte sequences, modelled as `List Nat`.  Go `int` values that can
be negative (such as the argument of `Truncate`) are modelled as `Int`.
-/

set_option maxRecDepth 8192

namespace ZapEncoder

/-- The `hex` constant of the encoder: the bytes of "0123456789abcdef",
used for `\u00XX` escapes (lowercase hex digits). -/
def hex : List Nat :=
  [0x30, 0x31, 0x32, 0x33, 0x34, 0x35, 0x36, 0x37, 0x38, 0x39,
   0x61, 0x62, 0x63, 0x64, 0x65, 0x66]

/-- Go's `unicode/utf8.DecodeRune` on the non-empty byte sequence
`p0 :: rest`: returns the decoded rune and its size in bytes.  Invalid,
truncated, or out-of-range sequences decode to `(0xFFFD, 1)`
(`RuneError` with size 1).  `utf8.DecodeRuneInString` has identical
semantics on the bytes of its string argument.  The first-byte
classification and continuation ranges follow Go's `first` and
`acceptRanges` tables. -/
def decodeRune (p0 : Nat) (rest : List Nat) : Nat × Nat :=
  if p0 < 0x80 then
    (p0, 1)
  else if p0 < 0xC2 ∨ 0xF4 < p0 then
    (0xFFFD, 1)
  else
    let sz := if p0 ≤ 0xDF then 2 else if p0 ≤ 0xEF then 3 else 4
    let lo := if p0 = 0xE0 then 0xA0 else if p0 = 0xF0 then 0x90 else 0x80
    let hi := if p0 = 0xED then 0x9F else if p0 = 0xF4 then 0x8F else 0xBF
    if rest.length + 1 < sz then
      (0xFFFD, 1)
    else
      let b1 := rest.getD 0 0
      if b1 < lo ∨ hi < b1 then
        (0xFFFD, 1)
      else if sz = 2 then
        ((p0 % 0x20) * 0x40 + b1 % 0x40, 2)
      else
        let b2 := rest.getD 1 0
        if b2 < 0x80 ∨ 0xBF < b2 then
          (0xFFFD, 1)
        else if sz = 3 then
          ((p0 % 0x10) * 0x1000 + (b1 % 0x40) * 0x40 + b2 % 0x40, 3)
        else
          let b3 := rest.getD 2 0
          if b3 < 0x80 ∨ 0xBF < b3 then
            (0xFFFD, 1)
          else
            ((p0 % 0x8) * 0x40000 + (b1 % 0x40) * 0x1000 +
               (b2 % 0x40) * 0x40 + b3 % 0x40, 4)

/-- `stackdriverEncoder.tryAddRuneSelf`: for a byte `b` below
`utf8.RuneSelf` (0x80) it returns the bytes appended to the buffer
(`some`); for `b ≥ 0x80` it returns `none` (the Go function returns
`false` and appends nothing). -/
def tryAddRuneSelf (b : Nat) : Option (List Nat) :=
  if 0x80 ≤ b then
    none
  else if 0x20 ≤ b ∧ b ≠ 0x5C ∧ b ≠ 0x22 then
    some [b]
  else if b = 0x5C ∨ b = 0x22 then
    some [0x5C, b]
  else if b = 0x0A then
    some [0x5C, 0x6E]
  else if b = 0x0D then
    some [0x5C, 0x72]
  else if b = 0x09 then
    some [0x5C, 0x74]
  else
    some ([0x5C, 0x75, 0x30, 0x30] ++ [hex.getD (b / 16) 0, hex.getD (b % 16) 0])

/-- The bytes `�` appended by `tryAddRuneError` when a byte decodes
to the replacement rune with size 1. -/
def runeErrorBytes : List Nat := [0x5C, 0x75, 0x66, 0x66, 0x66, 0x64]

/-- `stackdriverEncoder.safeAddString`: JSON-escapes the bytes of a string,
returning the bytes appended to the buffer.  ASCII bytes go through
`tryAddRuneSelf`; other positions are decoded with
`utf8.DecodeRuneInString`, the `(RuneError, 1)` case emits `�`
(`tryAddRuneError`), and valid multi-byte runes are appended verbatim via
`AppendString` of the sub-string. -/
def safeAddString : List Nat → List Nat
  | [] => []
  | b :: rest =>
    match tryAddRuneSelf b with
    | some out => out ++ safeAddString rest
    | none =>
      let rs := decodeRune b rest
      if rs.1 = 0xFFFD ∧ rs.2 = 1 then
        runeErrorBytes ++ safeAddString rest
      else
        (b :: List.take (rs.2 - 1) rest) ++ safeAddString (List.drop (rs.2 - 1) rest)
termination_by l => l.length
decreasing_by
  all_goals simp [List.length_drop]
  all_goals omega

/-- `stackdriverEncoder.safeAddByteString`: the no-alloc equivalent of
`safeAddString` for byte slices; positions are decoded with
`utf8.DecodeRune` and valid runes appended verbatim via `Write` of the
sub-slice. -/
def safeAddByteString : List Nat → List Nat
  | [] => []
  | b :: rest =>
    match tryAddRuneSelf b with
    | some out => out ++ safeAddByteString rest
    | none =>
      let rs := decodeRune b rest
      if rs.1 = 0xFFFD ∧ rs.2 = 1 then
        runeErrorBytes ++ safeAddByteString rest
      else
        (b :: List.take (rs.2 - 1) rest) ++ safeAddByteString (List.drop (rs.2 - 1) rest)
termination_by l => l.length
decreasing_by
  all_goals simp [List.length_drop]
  all_goals omega

/-- Go `float64` values as the encoder observes them: the `math.IsNaN` /
`math.IsInf` classification, with a finite value carrying the decimal
digit bytes that `strconv` produces for it (the shortest round-trip
representation; its digit computation is not re-modelled here). -/
inductive GoFloat where
  | nan
  | posInf
  | negInf
  | finite (digits : List Nat)
deriving DecidableEq

/-- `strconv.FormatFloat(f, 'f', -1, bitSize)` (= the bytes appended by
`strconv.AppendFloat`): `NaN`, `+Inf` and `-Inf` are formatted as the
unquoted tokens `NaN`, `+Inf`, `-Inf`; a finite value formats as its
digit bytes.  The bit size selects which shortest representation the
finite value carries, so it is not used further here. -/
def formatFloat : GoFloat → Nat → List Nat
  | .nan, _ => [0x4E, 0x61, 0x4E]
  | .posInf, _ => [0x2B, 0x49, 0x6E, 0x66]
  | .negInf, _ => [0x2D, 0x49, 0x6E, 0x66]
  | .finite digits, _ => digits

/-- `strconv.AppendBool`: the bytes `true` or `false`. -/
def formatBool (v : Bool) : List Nat :=
  if v then [0x74, 0x72, 0x75, 0x65] else [0x66, 0x61, 0x6C, 0x73, 0x65]

/-- `strconv.AppendInt(_, i, 10)`: decimal digit bytes of `i`, with a
leading `-` for negative values. -/
def formatInt (i : Int) : List Nat :=
  (toString i).data.map Char.toNat

/-- The `stackdriverEncoder` state that the claims concern: its output
buffer (the byte content of the `pool.Pooler` it borrows), the `spaced`
flag, and the open-namespace counter.  The logging client and the
reflection scratch pair play no role in the claims. -/
structure StackdriverEncoder where
  buf : List Nat
  spaced : Bool
  openNamespaces : Nat
deriving DecidableEq

namespace StackdriverEncoder

/-- `stackdriverEncoder.addElementSeparator`: inspects the last buffer
byte; if the buffer is empty or ends in `{`, `[`, `:`, `,` or space it
writes nothing, otherwise it appends a comma (and a space when
`spaced`). -/
def addElementSeparator (e : StackdriverEncoder) : StackdriverEncoder :=
  match e.buf.getLast? with
  | none => e
  | some c =>
    if c = 0x7B ∨ c = 0x5B ∨ c = 0x3A ∨ c = 0x2C ∨ c = 0x20 then e
    else { e with buf := e.buf ++ (if e.spaced then [0x2C, 0x20] else [0x2C]) }

/-- `stackdriverEncoder.addKey`: element separator, quote, escaped key,
quote, colon, and a space when `spaced`. -/
def addKey (e : StackdriverEncoder) (key : List Nat) : StackdriverEncoder :=
  let e := addElementSeparator e
  let e := { e with buf := e.buf ++ [0x22] }
  let e := { e with buf := e.buf ++ safeAddString key }
  let e := { e with buf := e.buf ++ [0x22] }
  let e := { e with buf := e.buf ++ [0x3A] }
  if e.spaced then { e with buf := e.buf ++ [0x20] } else e

/-- `stackdriverEncoder.AppendString`: separator, then the escaped value
in quotes. -/
def AppendString (e : StackdriverEncoder) (val : List Nat) : StackdriverEncoder :=
  let e := addElementSeparator e
  let e := { e with buf := e.buf ++ [0x22] }
  let e := { e with buf := e.buf ++ safeAddString val }
  { e with buf := e.buf ++ [0x22] }

/-- `stackdriverEncoder.AddString`. -/
def AddString (e : StackdriverEncoder) (key val : List Nat) : StackdriverEncoder :=
  AppendString (addKey e key) val

/-- `stackdriverEncoder.AppendInt64`: separator, then
`buf.AppendInt(val)`. -/
def AppendInt64 (e : StackdriverEncoder) (val : Int) : StackdriverEncoder :=
  let e := addElementSeparator e
  { e with buf := e.buf ++ formatInt val }

/-- `stackdriverEncoder.AddInt64`. -/
def AddInt64 (e : StackdriverEncoder) (key : List Nat) (val : Int) : StackdriverEncoder :=
  AppendInt64 (addKey e key) val

/-- `stackdriverEncoder.AppendBool`: separator, then
`buf.AppendBool(val)`. -/
def AppendBool (e : StackdriverEncoder) (val : Bool) : StackdriverEncoder :=
  let e := addElementSeparator e
  { e with buf := e.buf ++ formatBool val }

/-- `stackdriverEncoder.AddBool`. -/
def AddBool (e : StackdriverEncoder) (key : List Nat) (val : Bool) : StackdriverEncoder :=
  AppendBool (addKey e key) val

/-- `stackdriverEncoder.OpenNamespace`: key, opening brace, and the
open-namespace counter incremented. -/
def OpenNamespace (e : StackdriverEncoder) (key : List Nat) : StackdriverEncoder :=
  let e := addKey e key
  { e with buf := e.buf ++ [0x7B], openNamespaces := e.openNamespaces + 1 }

/-- `stackdriverEncoder.closeOpenNamespaces`: appends one `}` per open
namespace. -/
def closeOpenNamespaces (e : StackdriverEncoder) : StackdriverEncoder :=
  { e with buf := e.buf ++ List.replicate e.openNamespaces 0x7D }

/-- `stackdriverEncoder.appendFloat`: separator, then the quoted tokens
`"NaN"`, `"+Inf"`, `"-Inf"` for the special values, and
`buf.AppendFloat(val, bitSize)` otherwise. -/
def appendFloat (e : StackdriverEncoder) (val : GoFloat) (bitSize : Nat) :
    StackdriverEncoder :=
  let e := addElementSeparator e
  match val with
  | .nan => { e with buf := e.buf ++ [0x22, 0x4E, 0x61, 0x4E, 0x22] }
  | .posInf => { e with buf := e.buf ++ [0x22, 0x2B, 0x49, 0x6E, 0x66, 0x22] }
  | .negInf => { e with buf := e.buf ++ [0x22, 0x2D, 0x49, 0x6E, 0x66, 0x22] }
  | .finite digits => { e with buf := e.buf ++ formatFloat (.finite digits) bitSize }

/-- `stackdriverEncoder.AppendFloat64`. -/
def AppendFloat64 (e : StackdriverEncoder) (v : GoFloat) : StackdriverEncoder :=
  appendFloat e v 64

/-- `stackdriverEncoder.AppendFloat32`: the Go method converts its
`float32` argument to `float64` (which preserves the NaN/Inf
classification and the finite value exactly) and calls `appendFloat`
with bit size 32. -/
def AppendFloat32 (e : StackdriverEncoder) (v : GoFloat) : StackdriverEncoder :=
  appendFloat e v 32

end StackdriverEncoder

/-- Default initial buffer capacity (`size` in package pool): 1 KiB. -/
def size : Nat := 1024

/-- `pool.MapBuffer` of src/pool/map.go: a thin wrapper around a byte
slice.  `bs` is the slice's content and `cap` its capacity; the pool
back-reference has no behavioural content here. -/
structure MapBuffer where
  bs : List Nat
  cap : Nat
deriving DecidableEq

namespace MapBuffer

/-- Go's `append` on the backing slice: content is concatenated; the
capacity is unchanged while the new length fits, and grows (to at least
the new length; the exact growth factor is a Go runtime detail) when it
does not. -/
def goAppend (mb : MapBuffer) (xs : List Nat) : MapBuffer :=
  let len2 := mb.bs.length + xs.length
  { bs := mb.bs ++ xs
    cap := if len2 ≤ mb.cap then mb.cap else max (2 * mb.cap) len2 }

/-- The buffer produced by the pool's `New` factory:
`make([]byte, 0, size)`. -/
def newMapBuffer : MapBuffer := { bs := [], cap := size }

/-- `MapBuffer.AppendByte`. -/
def AppendByte (mb : MapBuffer) (v : Nat) : MapBuffer := mb.goAppend [v]

/-- `MapBuffer.AppendString`. -/
def AppendString (mb : MapBuffer) (s : List Nat) : MapBuffer := mb.goAppend s

/-- `MapBuffer.Write`. -/
def Write (mb : MapBuffer) (p : List Nat) : MapBuffer := mb.goAppend p

/-- `MapBuffer.AppendFloat`: `strconv.AppendFloat(mb.bs, f, 'f', -1,
bitSize)`.  Per its doc comment it doesn't quote NaN, +Inf or -Inf. -/
def AppendFloat (mb : MapBuffer) (f : GoFloat) (bitSize : Nat) : MapBuffer :=
  mb.goAppend (formatFloat f bitSize)

/-- `MapBuffer.AppendInt`. -/
def AppendInt (mb : MapBuffer) (i : Int) : MapBuffer := mb.goAppend (formatInt i)

/-- `MapBuffer.AppendBool`. -/
def AppendBool (mb : MapBuffer) (v : Bool) : MapBuffer := mb.goAppend (formatBool v)

/-- `MapBuffer.Len`. -/
def Len (mb : MapBuffer) : Nat := mb.bs.length

/-- `MapBuffer.Cap`. -/
def Cap (mb : MapBuffer) : Nat := mb.cap

/-- `MapBuffer.Reset`: `mb.bs = mb.bs[:0]` — length to zero, capacity
retained. -/
def Reset (mb : MapBuffer) : MapBuffer := { mb with bs := [] }

/-- `MapBuffer.Truncate`: `n == 0` resets; a negative `n` or `n`
beyond the length panics (modelled as `none`); otherwise the first `n`
bytes are kept. -/
def Truncate (mb : MapBuffer) (n : Int) : Option MapBuffer :=
  if n = 0 then
    some mb.Reset
  else if n < 0 ∨ (mb.Len : Int) < n then
    none
  else
    some { mb with bs := mb.bs.take n.toNat }

/-- `MapBuffer.Get` as the checkout path sees it: `sync.Pool.Get` hands
back either a fresh `newMapBuffer` or an arbitrary previously-Put
buffer `mb`, and `Get` resets it before returning it. -/
def Get (mb : MapBuffer) : MapBuffer := mb.Reset

end MapBuffer

/-- A caller-visible buffer operation, for stating the pool reuse
invariant: an append of raw bytes, a `Reset`, or a `Put` immediately
followed by a `Get` that hands the same buffer back out. -/
inductive BufOp where
  | append (xs : List Nat)
  | reset
  | putGet
deriving DecidableEq

/-- One `BufOp` applied to a buffer. -/
def stepOp (b : MapBuffer) : BufOp → MapBuffer
  | .append xs => b.goAppend xs
  | .reset => b.Reset
  | .putGet => b.Get

/-- A sequence of `BufOp`s applied to a buffer. -/
def runOps (b : MapBuffer) (ops : List BufOp) : MapBuffer :=
  ops.foldl stepOp b

/-- `true` when the buffer's content length stays within the initial
capacity `size` after every step of `ops` — "has only ever held at most
its initial capacity's worth of data". -/
def fitsCap : MapBuffer → List BufOp → Bool
  | _, [] => true
  | b, op :: rest =>
    let b2 := stepOp b op
    decide (b2.bs.length ≤ size) && fitsCap b2 rest

/-! ## The experimental sync.Map-based buffer variant -/

/-- The per-kind store keys (`mapKey`, `1 << iota`). -/
def keyByte : Nat := 1
/-- `keyString`. -/
def keyString : Nat := 2
/-- `keyInt`. -/
def keyInt : Nat := 4
/-- `keyUint`. -/
def keyUint : Nat := 8
/-- `keyBool`. -/
def keyBool : Nat := 16
/-- `keyFloat`. -/
def keyFloat : Nat := 32

/-- A value held in the sync.Map: the variant stores a single `byte`
(from `AppendByte`) or a `[]byte` (all other appends and `Write`). -/
inductive SMVal where
  | byteV (b : Nat)
  | bytesV (bs : List Nat)
deriving DecidableEq

/-- The bytes a stored value contributes to `Bytes()`. -/
def smValBytes : SMVal → List Nat
  | .byteV b => [b]
  | .bytesV bs => bs

/-- `sync.Map.Store`: replace the value of an existing key in place, or
add the key.  A `sync.Map` never holds duplicate keys; its iteration
order is unspecified in Go, and is modelled as insertion order (the
claims settled against this model only involve single-key states, where
the order is immaterial). -/
def smStore : List (Nat × SMVal) → Nat → SMVal → List (Nat × SMVal)
  | [], k, v => [(k, v)]
  | p :: rest, k, v =>
    if p.1 = k then (k, v) :: rest else p :: smStore rest k v

/-- The `MapBuffer` of the experimental sync.Map variant (the older
pool/map.go revision kept in the repository): a wrapper around a
`sync.Map` keyed by value kind. -/
structure SyncMapBuffer where
  m : List (Nat × SMVal)
deriving DecidableEq

namespace SyncMapBuffer

/-- sync.Map `MapBuffer.AppendByte`: stores the byte under `keyByte`. -/
def AppendByte (mb : SyncMapBuffer) (v : Nat) : SyncMapBuffer :=
  ⟨smStore mb.m keyByte (.byteV v)⟩

/-- sync.Map `MapBuffer.AppendString`: stores the string's bytes under
`keyString`. -/
def AppendString (mb : SyncMapBuffer) (s : List Nat) : SyncMapBuffer :=
  ⟨smStore mb.m keyString (.bytesV s)⟩

/-- sync.Map `MapBuffer.Write`: stores the slice under `keyByte`. -/
def Write (mb : SyncMapBuffer) (p : List Nat) : SyncMapBuffer :=
  ⟨smStore mb.m keyByte (.bytesV p)⟩

/-- sync.Map `MapBuffer.Bytes`: ranges over the map concatenating each
stored value's bytes. -/
def Bytes (mb : SyncMapBuffer) : List Nat :=
  mb.m.foldl (fun acc p => acc ++ smValBytes p.2) []

/-- sync.Map `MapBuffer.Len`: `len(mb.Bytes())`. -/
def Len (mb : SyncMapBuffer) : Nat := mb.Bytes.length

/-- sync.Map `MapBuffer.Reset`: installs a fresh empty map. -/
def Reset (_mb : SyncMapBuffer) : SyncMapBuffer := ⟨[]⟩

/-- sync.Map `MapBuffer.Truncate`: `n == 0` resets; negative `n` or `n`
beyond `Len()` panics (`none`); otherwise the `Range` body calls
`Delete` on every key of the map (`n+1` times each), so the whole
content is discarded. -/
def Truncate (mb : SyncMapBuffer) (n : Int) : Option SyncMapBuffer :=
  if n = 0 then
    some mb.Reset
  else if n < 0 ∨ (mb.Len : Int) < n then
    none
  else
    some ⟨[]⟩

end SyncMapBuffer

/-! ## Entry assembly: context extraction -/

/-- `stackdriver.HTTPRequest`. -/
structure HTTPRequest where
  method : String
  url : String
  userAgent : String
  referrer : String
  responseStatusCode : Int
  remoteIP : String
deriving DecidableEq

/-- `HTTPRequest.Clone`: a field-by-field copy. -/
def HTTPRequest.Clone (r : HTTPRequest) : HTTPRequest :=
  { method := r.method, url := r.url, userAgent := r.userAgent,
    referrer := r.referrer, responseStatusCode := r.responseStatusCode,
    remoteIP := r.remoteIP }

/-- `stackdriver.ReportLocation`. -/
structure ReportLocation where
  filePath : String
  lineNumber : Int
  functionName : String
deriving DecidableEq

/-- `ReportLocation.Clone`. -/
def ReportLocation.Clone (r : ReportLocation) : ReportLocation :=
  { filePath := r.filePath, lineNumber := r.lineNumber,
    functionName := r.functionName }

/-- `stackdriver.LogContext`: the persistent per-logger context.  Nil
pointers are `none`. -/
structure LogContext where
  user : String
  httpRequest : Option HTTPRequest
  reportLocation : Option ReportLocation
deriving DecidableEq

/-- `LogContext.IsEmpty`. -/
def LogContext.IsEmpty (lc : LogContext) : Bool :=
  lc.user == "" && lc.httpRequest.isNone && lc.reportLocation.isNone

/-- `LogContext.Clone`: deep copy. -/
def LogContext.Clone (lc : LogContext) : LogContext :=
  { user := lc.user,
    httpRequest := lc.httpRequest.map HTTPRequest.Clone,
    reportLocation := lc.reportLocation.map ReportLocation.Clone }

/-- `Encoder.cloneCtx`: a fresh empty context when the encoder has none,
otherwise a clone. -/
def cloneCtx : Option LogContext → LogContext
  | none => { user := "", httpRequest := none, reportLocation := none }
  | some c => c.Clone

/-- The dynamic value carried in a `zapcore.Field`'s `Interface` slot,
as far as `extractCtx`'s type assertions are concerned. -/
inductive FieldValue where
  | httpReq (r : HTTPRequest)
  | reportLoc (l : ReportLocation)
  | other
deriving DecidableEq

/-- A `zapcore.Field` as `extractCtx` reads it: the key, the `String`
slot, and the `Interface` slot. -/
structure LogField where
  key : String
  strVal : String
  iface : FieldValue
deriving DecidableEq

/-- The `f.Interface.(*HTTPRequest)` type assertion (`none` = panic). -/
def asHTTPRequest : FieldValue → Option HTTPRequest
  | .httpReq r => some r
  | _ => none

/-- The `f.Interface.(*ReportLocation)` type assertion. -/
def asReportLocation : FieldValue → Option ReportLocation
  | .reportLoc l => some l
  | _ => none

/-- One iteration of `extractCtx`'s field loop in the variant whose
`output = append(output, f)` line is commented out: recognized context
keys update the context; every other field is dropped (nothing is
appended to `output`). -/
def extractCtxStep (lc : LogContext) (f : LogField) : Option LogContext :=
  if f.key = "context.httpRequest" then
    (asHTTPRequest f.iface).map (fun r => { lc with httpRequest := some r })
  else if f.key = "context.reportLocation" then
    (asReportLocation f.iface).map (fun l => { lc with reportLocation := some l })
  else if f.key = "context.user" then
    some { lc with user := f.strVal }
  else
    some lc

/-- `Encoder.extractCtx` (field-dropping variant,
src/stackdriver/stackdriver.go): with an empty cloned context it
returns the fields unchanged and no context; otherwise it folds the
fields into the context and returns the untouched empty `output` list.
`none` models a type-assertion panic. -/
def extractCtx (ectx : Option LogContext) (fields : List LogField) :
    Option (List LogField × Option LogContext) :=
  let lc := cloneCtx ectx
  if lc.IsEmpty then
    some (fields, none)
  else
    (fields.foldlM extractCtxStep lc).map (fun lc2 => (([] : List LogField), some lc2))

/-! ## Statement helpers (spec side) -/

/-- Statement helper: the separator bytes the claims say
`addElementSeparator` writes — a comma (plus a space when `spaced`)
exactly when the buffer is non-empty and its last byte is not one of
`{`, `[`, `:`, `,`, space. -/
def separatorSpec (spaced : Bool) (buf : List Nat) : List Nat :=
  if buf ≠ [] ∧ buf.getLast? ∉ [some 0x7B, some 0x5B, some 0x3A, some 0x2C, some 0x20] then
    if spaced then [0x2C, 0x20] else [0x2C]
  else
    []

/-- Statement helper: brace balance of a byte list, tracking the
nesting depth of `{`/`}` and requiring it never to underflow and to end
at the given start depth consumed to zero. -/
def braceBalanced : List Nat → Nat → Bool
  | [], d => d == 0
  | c :: rest, d =>
    if c = 0x7B then braceBalanced rest (d + 1)
    else if c = 0x7D then decide (d ≠ 0) && braceBalanced rest (d - 1)
    else braceBalanced rest d

/-! ## Unfolding lemmas for the escaping loops -/

theorem safeAddString_nil : safeAddString [] = [] := by
  rw [safeAddString]

theorem safeAddString_cons_self (b : Nat) (rest out : List Nat)
    (h : tryAddRuneSelf b = some out) :
    safeAddString (b :: rest) = out ++ safeAddString rest := by
  rw [safeAddString, h]

theorem safeAddString_cons_bad (b : Nat) (rest : List Nat)
    (h : tryAddRuneSelf b = none)
    (h1 : (decodeRune b rest).1 = 0xFFFD) (h2 : (decodeRune b rest).2 = 1) :
    safeAddString (b :: rest) = runeErrorBytes ++ safeAddString rest := by
  rw [safeAddString, h]
  simp only [if_pos (And.intro h1 h2)]

theorem safeAddString_cons_good (b : Nat) (rest : List Nat)
    (h : tryAddRuneSelf b = none)
    (hg : ¬((decodeRune b rest).1 = 0xFFFD ∧ (decodeRune b rest).2 = 1)) :
    safeAddString (b :: rest) =
      (b :: List.take ((decodeRune b rest).2 - 1) rest) ++
        safeAddString (List.drop ((decodeRune b rest).2 - 1) rest) := by
  rw [safeAddString, h]
  simp only [if_neg hg]

theorem safeAddByteString_nil : safeAddByteString [] = [] := by
  rw [safeAddByteString]

theorem safeAddByteString_cons_self (b : Nat) (rest out : List Nat)
    (h : tryAddRuneSelf b = some out) :
    safeAddByteString (b :: rest) = out ++ safeAddByteString rest := by
  rw [safeAddByteString, h]

theorem safeAddByteString_cons_bad (b : Nat) (rest : List Nat)
    (h : tryAddRuneSelf b = none)
    (h1 : (decodeRune b rest).1 = 0xFFFD) (h2 : (decodeRune b rest).2 = 1) :
    safeAddByteString (b :: rest) = runeErrorBytes ++ safeAddByteString rest := by
  rw [safeAddByteString, h]
  simp only [if_pos (And.intro h1 h2)]

theorem safeAddByteString_cons_good (b : Nat) (rest : List Nat)
    (h : tryAddRuneSelf b = none)
    (hg : ¬((decodeRune b rest).1 = 0xFFFD ∧ (decodeRune b rest).2 = 1)) :
    safeAddByteString (b :: rest) =
      (b :: List.take ((decodeRune b rest).2 - 1) rest) ++
        safeAddByteString (List.drop ((decodeRune b rest).2 - 1) rest) := by
  rw [safeAddByteString, h]
  simp only [if_neg hg]

/-! ## C1: safeAddString's escaping behaviour -/

/-- C1.  For every input string, `safeAddString` appends exactly: bytes
below 0x80 that are ≥ 0x20 and not `"` or `\` pass through unchanged;
`"` and `\` are emitted preceded by a backslash; newline, carriage
return and tab become the two-byte escapes; every other byte below 0x20
becomes `\u00XX` with lowercase hex digits from the `hex` table; a byte
position that decodes (per `utf8.DecodeRuneInString`) to the replacement
rune with size 1 is replaced by the six bytes `�`; and a validly
decoded multi-byte rune's bytes pass through verbatim. -/
theorem safeAddString_escape_cases (b : Nat) (rest : List Nat) :
    (safeAddString [] = []) ∧
    (0x20 ≤ b → b < 0x80 → b ≠ 0x22 → b ≠ 0x5C →
      safeAddString (b :: rest) = b :: safeAddString rest) ∧
    (b = 0x22 ∨ b = 0x5C →
      safeAddString (b :: rest) = 0x5C :: b :: safeAddString rest) ∧
    (safeAddString (0x0A :: rest) = 0x5C :: 0x6E :: safeAddString rest) ∧
    (safeAddString (0x0D :: rest) = 0x5C :: 0x72 :: safeAddString rest) ∧
    (safeAddString (0x09 :: rest) = 0x5C :: 0x74 :: safeAddString rest) ∧
    (b < 0x20 → b ≠ 0x0A → b ≠ 0x0D → b ≠ 0x09 →
      safeAddString (b :: rest) =
        0x5C :: 0x75 :: 0x30 :: 0x30 :: hex.getD (b / 16) 0 ::
          hex.getD (b % 16) 0 :: safeAddString rest) ∧
    (0x80 ≤ b → (decodeRune b rest).1 = 0xFFFD → (decodeRune b rest).2 = 1 →
      safeAddString (b :: rest) = runeErrorBytes ++ safeAddString rest) ∧
    (0x80 ≤ b → ¬((decodeRune b rest).1 = 0xFFFD ∧ (decodeRune b rest).2 = 1) →
      safeAddString (b :: rest) =
        (b :: List.take ((decodeRune b rest).2 - 1) rest) ++
          safeAddString (List.drop ((decodeRune b rest).2 - 1) rest)) := by
  refine ⟨safeAddString_nil, ?_, ?_, ?_, ?_, ?_, ?_, ?_, ?_⟩
  · intro h1 h2 h3 h4
    have ht : tryAddRuneSelf b = some [b] := by
      unfold tryAddRuneSelf
      rw [if_neg (by omega), if_pos ⟨h1, h4, h3⟩]
    rw [safeAddString_cons_self b rest [b] ht]
    rfl
  · intro hq
    have ht : tryAddRuneSelf b = some [0x5C, b] := by
      unfold tryAddRuneSelf
      have hb8 : ¬ 0x80 ≤ b := by omega
      have hni : ¬(0x20 ≤ b ∧ b ≠ 0x5C ∧ b ≠ 0x22) := by
        rcases hq with h | h <;> subst h <;> simp
      rw [if_neg hb8, if_neg hni, if_pos (by omega)]
    rw [safeAddString_cons_self b rest _ ht]
    rfl
  · rw [safeAddString_cons_self 0x0A rest [0x5C, 0x6E] (by decide)]; rfl
  · rw [safeAddString_cons_self 0x0D rest [0x5C, 0x72] (by decide)]; rfl
  · rw [safeAddString_cons_self 0x09 rest [0x5C, 0x74] (by decide)]; rfl
  · intro h1 h2 h3 h4
    have ht : tryAddRuneSelf b =
        some ([0x5C, 0x75, 0x30, 0x30] ++ [hex.getD (b / 16) 0, hex.getD (b % 16) 0]) := by
      unfold tryAddRuneSelf
      rw [if_neg (by omega), if_neg (by omega), if_neg (by omega),
        if_neg h2, if_neg h3, if_neg h4]
    rw [safeAddString_cons_self b rest _ ht]
    rfl
  · intro h1 h2 h3
    exact safeAddString_cons_bad b rest
      (by unfold tryAddRuneSelf; rw [if_pos h1]) h2 h3
  · intro h1 hg
    exact safeAddString_cons_good b rest
      (by unfold tryAddRuneSelf; rw [if_pos h1]) hg

/-- C1 witness: the theorem applied at concrete inputs — a printable
byte, a quote, a control byte, an invalid byte 0xFF, and the valid
two-byte sequence C3 A9. -/
theorem safeAddString_escape_cases_witness :
    ((0x20 : Nat) ≤ 0x41 ∧ safeAddString [0x41] = 0x41 :: safeAddString []) ∧
    safeAddString [0x22] = 0x5C :: 0x22 :: safeAddString [] ∧
    safeAddString [0x01] =
      0x5C :: 0x75 :: 0x30 :: 0x30 :: hex.getD 0 0 :: hex.getD 1 0 :: safeAddString [] ∧
    ((0x80 : Nat) ≤ 0xFF ∧ (decodeRune 0xFF []).2 = 1 ∧
      safeAddString [0xFF] = runeErrorBytes ++ safeAddString []) ∧
    safeAddString [0xC3, 0xA9] =
      (0xC3 :: List.take ((decodeRune 0xC3 [0xA9]).2 - 1) [0xA9]) ++
        safeAddString (List.drop ((decodeRune 0xC3 [0xA9]).2 - 1) [0xA9]) := by
  refine ⟨⟨by decide, ?_⟩, ?_, ?_, ⟨by decide, by decide, ?_⟩, ?_⟩
  · exact (safeAddString_escape_cases 0x41 []).2.1 (by decide) (by decide)
      (by decide) (by decide)
  · exact (safeAddString_escape_cases 0x22 []).2.2.1 (Or.inl rfl)
  · exact (safeAddString_escape_cases 0x01 []).2.2.2.2.2.2.1 (by decide)
      (by decide) (by decide) (by decide)
  · exact (safeAddString_escape_cases 0xFF []).2.2.2.2.2.2.2.1 (by decide)
      (by decide) (by decide)
  · exact (safeAddString_escape_cases 0xC3 [0xA9]).2.2.2.2.2.2.2.2 (by decide)
      (by decide)

/-! ## C2: the byte-slice escaper coincides with the string escaper -/

/-- C2.  On identical input bytes, `safeAddByteString` appends exactly
the same bytes as `safeAddString`: the two escaping routines are
behaviourally identical. -/
theorem safeAddByteString_eq_safeAddString (s : List Nat) :
    safeAddByteString s = safeAddString s := by
  have H : ∀ n (s : List Nat), s.length ≤ n →
      safeAddByteString s = safeAddString s := by
    intro n
    induction n with
    | zero =>
      intro s hs
      have h0 : s = [] := List.eq_nil_of_length_eq_zero (Nat.le_zero.mp hs)
      subst h0
      rw [safeAddByteString_nil, safeAddString_nil]
    | succ n ih =>
      intro s hs
      match s with
      | [] => rw [safeAddByteString_nil, safeAddString_nil]
      | b :: rest =>
        have hr : rest.length ≤ n := by
          simpa using Nat.lt_succ_iff.mp (Nat.lt_of_lt_of_le (by simp) hs)
        cases ht : tryAddRuneSelf b with
        | some out =>
          rw [safeAddByteString_cons_self b rest out ht,
            safeAddString_cons_self b rest out ht, ih rest hr]
        | none =>
          by_cases hbad : (decodeRune b rest).1 = 0xFFFD ∧ (decodeRune b rest).2 = 1
          · rw [safeAddByteString_cons_bad b rest ht hbad.1 hbad.2,
              safeAddString_cons_bad b rest ht hbad.1 hbad.2, ih rest hr]
          · rw [safeAddByteString_cons_good b rest ht hbad,
              safeAddString_cons_good b rest ht hbad,
              ih (List.drop ((decodeRune b rest).2 - 1) rest)
                (by simp [List.length_drop]; omega)]
  exact H s.length s (Nat.le_refl _)

/-! ## C3: separator and key/value layout of Add calls -/

namespace StackdriverEncoder

theorem addElementSeparator_buf (e : StackdriverEncoder) :
    (addElementSeparator e).buf = e.buf ++ separatorSpec e.spaced e.buf := by
  unfold addElementSeparator separatorSpec
  cases h : e.buf.getLast? with
  | none =>
    have hb : e.buf = [] := List.getLast?_eq_none_iff.mp h
    simp [hb]
  | some c =>
    have hne : e.buf ≠ [] := by
      intro h0
      rw [h0] at h
      simp at h
    dsimp only
    by_cases hc : c = 0x7B ∨ c = 0x5B ∨ c = 0x3A ∨ c = 0x2C ∨ c = 0x20
    · rw [if_pos hc, if_neg, List.append_nil]
      intro hcond
      exact hcond.2 (by simp [h]; tauto)
    · have hmem : (some c : Option Nat) ∉
          [some (0x7B : Nat), some 0x5B, some 0x3A, some 0x2C, some 0x20] := by
        simp
        tauto
      rw [if_neg hc, if_pos (And.intro hne hmem)]

theorem addElementSeparator_spaced (e : StackdriverEncoder) :
    (addElementSeparator e).spaced = e.spaced := by
  unfold addElementSeparator
  split
  · rfl
  · split <;> rfl

theorem addElementSeparator_openNamespaces (e : StackdriverEncoder) :
    (addElementSeparator e).openNamespaces = e.openNamespaces := by
  unfold addElementSeparator
  split
  · rfl
  · split <;> rfl

theorem addKey_buf (e : StackdriverEncoder) (k : List Nat) :
    (addKey e k).buf =
      e.buf ++ separatorSpec e.spaced e.buf ++ [0x22] ++ safeAddString k ++
        [0x22, 0x3A] ++ (if e.spaced then [0x20] else []) := by
  unfold addKey
  by_cases hs : e.spaced
  · rw [if_pos (by rw [addElementSeparator_spaced]; exact hs)]
    simp [addElementSeparator_buf, hs, List.append_assoc]
  · rw [if_neg (by rw [addElementSeparator_spaced]; exact hs)]
    simp [addElementSeparator_buf, hs, List.append_assoc]

theorem addKey_spaced (e : StackdriverEncoder) (k : List Nat) :
    (addKey e k).spaced = e.spaced := by
  unfold addKey
  by_cases hs : e.spaced
  · rw [if_pos (by rw [addElementSeparator_spaced]; exact hs)]
    simp [addElementSeparator_spaced]
  · rw [if_neg (by rw [addElementSeparator_spaced]; exact hs)]
    simp [addElementSeparator_spaced]

theorem addKey_openNamespaces (e : StackdriverEncoder) (k : List Nat) :
    (addKey e k).openNamespaces = e.openNamespaces := by
  unfold addKey
  by_cases hs : e.spaced
  · rw [if_pos (by rw [addElementSeparator_spaced]; exact hs)]
    simp [addElementSeparator_openNamespaces]
  · rw [if_neg (by rw [addElementSeparator_spaced]; exact hs)]
    simp [addElementSeparator_openNamespaces]

theorem getLast?_append_pair (l : List Nat) (a b : Nat) :
    (l ++ [a, b]).getLast? = some b := by
  rw [show [a, b] = [a] ++ [b] from rfl, ← List.append_assoc, List.getLast?_concat]

theorem addKey_getLast (e : StackdriverEncoder) (k : List Nat) :
    (addKey e k).buf.getLast? = some (if e.spaced then 0x20 else 0x3A) := by
  rw [addKey_buf]
  cases hs : e.spaced
  · simp only [Bool.false_eq_true, if_neg not_false, List.append_nil]
    exact getLast?_append_pair _ _ _
  · simp only [if_pos]
    exact List.getLast?_concat _

theorem addElementSeparator_after_addKey (e : StackdriverEncoder) (k : List Nat) :
    addElementSeparator (addKey e k) = addKey e k := by
  unfold addElementSeparator
  rw [addKey_getLast]
  by_cases hs : e.spaced <;> simp [hs]

theorem AppendString_buf (e : StackdriverEncoder) (v : List Nat) :
    (AppendString e v).buf =
      e.buf ++ separatorSpec e.spaced e.buf ++ [0x22] ++ safeAddString v ++ [0x22] := by
  unfold AppendString
  simp [addElementSeparator_buf, List.append_assoc]

theorem AppendString_spaced (e : StackdriverEncoder) (v : List Nat) :
    (AppendString e v).spaced = e.spaced := by
  unfold AppendString
  simp [addElementSeparator_spaced]

theorem AppendString_openNamespaces (e : StackdriverEncoder) (v : List Nat) :
    (AppendString e v).openNamespaces = e.openNamespaces := by
  unfold AppendString
  simp [addElementSeparator_openNamespaces]

theorem AddString_buf (e : StackdriverEncoder) (k v : List Nat) :
    (AddString e k v).buf =
      e.buf ++ separatorSpec e.spaced e.buf ++ [0x22] ++ safeAddString k ++
        [0x22, 0x3A] ++ (if e.spaced then [0x20] else []) ++
        [0x22] ++ safeAddString v ++ [0x22] := by
  have hsep : separatorSpec (addKey e k).spaced (addKey e k).buf = [] := by
    unfold separatorSpec
    rw [if_neg]
    intro hcond
    apply hcond.2
    rw [addKey_getLast]
    by_cases hs : e.spaced <;> simp [hs]
  show (AppendString (addKey e k) v).buf = _
  rw [AppendString_buf, hsep, addKey_buf]
  simp [List.append_assoc]

theorem AddString_openNamespaces (e : StackdriverEncoder) (k v : List Nat) :
    (AddString e k v).openNamespaces = e.openNamespaces := by
  show (AppendString (addKey e k) v).openNamespaces = _
  rw [AppendString_openNamespaces, addKey_openNamespaces]

theorem OpenNamespace_buf (e : StackdriverEncoder) (k : List Nat) :
    (OpenNamespace e k).buf =
      e.buf ++ separatorSpec e.spaced e.buf ++ [0x22] ++ safeAddString k ++
        [0x22, 0x3A] ++ (if e.spaced then [0x20] else []) ++ [0x7B] := by
  show ((addKey e k).buf ++ [0x7B]) = _
  rw [addKey_buf]

theorem OpenNamespace_spaced (e : StackdriverEncoder) (k : List Nat) :
    (OpenNamespace e k).spaced = e.spaced := by
  show (addKey e k).spaced = _
  rw [addKey_spaced]

theorem OpenNamespace_openNamespaces (e : StackdriverEncoder) (k : List Nat) :
    (OpenNamespace e k).openNamespaces = e.openNamespaces + 1 := by
  show (addKey e k).openNamespaces + 1 = _
  rw [addKey_openNamespaces]

/-- C3.  Every `Add` call delegates to `addKey` followed by the matching
`Append`; the element separator (a comma, plus a space when `spaced`) is
written exactly when the buffer is non-empty and its last byte is not
one of `{`, `[`, `:`, `,`, space; and `AddString` lays out
separator, quoted escaped key, colon (plus optional space) and the
quoted escaped value. -/
theorem addString_separator_contract (e : StackdriverEncoder)
    (k v : List Nat) (i : Int) (bv : Bool) :
    (separatorSpec e.spaced e.buf ≠ [] ↔
      e.buf ≠ [] ∧
        e.buf.getLast? ∉ [some 0x7B, some 0x5B, some 0x3A, some 0x2C, some 0x20]) ∧
    AddString e k v = AppendString (addKey e k) v ∧
    AddInt64 e k i = AppendInt64 (addKey e k) i ∧
    AddBool e k bv = AppendBool (addKey e k) bv ∧
    (AddString e k v).buf =
      e.buf ++ separatorSpec e.spaced e.buf ++ [0x22] ++ safeAddString k ++
        [0x22, 0x3A] ++ (if e.spaced then [0x20] else []) ++
        [0x22] ++ safeAddString v ++ [0x22] := by
  refine ⟨?_, rfl, rfl, rfl, ?_⟩
  · unfold separatorSpec
    by_cases h : e.buf ≠ [] ∧
        e.buf.getLast? ∉ [some 0x7B, some 0x5B, some 0x3A, some 0x2C, some 0x20]
    · rw [if_pos h]
      refine ⟨fun _ => h, fun _ => ?_⟩
      cases e.spaced <;> simp
    · rw [if_neg h]
      exact ⟨fun hfalse => absurd rfl hfalse, fun hcond => absurd hcond h⟩
  · exact AddString_buf e k v

/-! ## C4: OpenNamespace and closeOpenNamespaces -/

/-- C4.  `OpenNamespace` writes separator, quoted escaped key, colon
(plus optional space) followed by a single `{` and increments the
open-namespace counter by one; `closeOpenNamespaces` appends exactly
one `}` per open namespace; and on a fresh encoder,
`OpenNamespace "ns"` then `AddString "k" "v"` leaves the unterminated
bytes `"ns":{"k":"v"` at depth 1, which `closeOpenNamespaces` closes
into brace-balanced content. -/
theorem openNamespace_scenario (e : StackdriverEncoder) (k : List Nat) :
    (OpenNamespace e k).buf =
      e.buf ++ separatorSpec e.spaced e.buf ++ [0x22] ++ safeAddString k ++
        [0x22, 0x3A] ++ (if e.spaced then [0x20] else []) ++ [0x7B] ∧
    (OpenNamespace e k).openNamespaces = e.openNamespaces + 1 ∧
    (∀ e2 : StackdriverEncoder,
      (closeOpenNamespaces e2).buf =
        e2.buf ++ List.replicate e2.openNamespaces 0x7D) ∧
    (AddString (OpenNamespace ⟨[], false, 0⟩ [0x6E, 0x73]) [0x6B] [0x76]).buf =
      [0x22, 0x6E, 0x73, 0x22, 0x3A, 0x7B, 0x22, 0x6B, 0x22, 0x3A, 0x22, 0x76, 0x22] ∧
    (AddString (OpenNamespace ⟨[], false, 0⟩ [0x6E, 0x73]) [0x6B] [0x76]).openNamespaces = 1 ∧
    (closeOpenNamespaces
        (AddString (OpenNamespace ⟨[], false, 0⟩ [0x6E, 0x73]) [0x6B] [0x76])).buf =
      [0x22, 0x6E, 0x73, 0x22, 0x3A, 0x7B, 0x22, 0x6B, 0x22, 0x3A, 0x22, 0x76, 0x22, 0x7D] ∧
    braceBalanced
      (closeOpenNamespaces
        (AddString (OpenNamespace ⟨[], false, 0⟩ [0x6E, 0x73]) [0x6B] [0x76])).buf 0 = true := by
  have hns : safeAddString [0x6E, 0x73] = [0x6E, 0x73] := by
    rw [safeAddString_cons_self 0x6E [0x73] [0x6E] (by decide),
      safeAddString_cons_self 0x73 [] [0x73] (by decide), safeAddString_nil]
    rfl
  have hk : safeAddString [0x6B] = [0x6B] := by
    rw [safeAddString_cons_self 0x6B [] [0x6B] (by decide), safeAddString_nil]
    rfl
  have hv : safeAddString [0x76] = [0x76] := by
    rw [safeAddString_cons_self 0x76 [] [0x76] (by decide), safeAddString_nil]
    rfl
  have hbuf1 : (OpenNamespace (⟨[], false, 0⟩ : StackdriverEncoder) [0x6E, 0x73]).buf =
      [0x22, 0x6E, 0x73, 0x22, 0x3A, 0x7B] := by
    rw [OpenNamespace_buf, hns]
    decide
  have hsp1 : (OpenNamespace (⟨[], false, 0⟩ : StackdriverEncoder) [0x6E, 0x73]).spaced =
      false := by
    rw [OpenNamespace_spaced]
  have hbuf2 : (AddString (OpenNamespace ⟨[], false, 0⟩ [0x6E, 0x73]) [0x6B] [0x76]).buf =
      [0x22, 0x6E, 0x73, 0x22, 0x3A, 0x7B, 0x22, 0x6B, 0x22, 0x3A, 0x22, 0x76, 0x22] := by
    rw [AddString_buf, hbuf1, hsp1, hk, hv]
    decide
  have hn2 : (AddString (OpenNamespace ⟨[], false, 0⟩ [0x6E, 0x73]) [0x6B] [0x76]).openNamespaces
      = 1 := by
    rw [AddString_openNamespaces, OpenNamespace_openNamespaces]
  have hclose : ∀ e2 : StackdriverEncoder,
      (closeOpenNamespaces e2).buf = e2.buf ++ List.replicate e2.openNamespaces 0x7D :=
    fun _ => rfl
  have hbuf3 : (closeOpenNamespaces
      (AddString (OpenNamespace ⟨[], false, 0⟩ [0x6E, 0x73]) [0x6B] [0x76])).buf =
      [0x22, 0x6E, 0x73, 0x22, 0x3A, 0x7B, 0x22, 0x6B, 0x22, 0x3A, 0x22, 0x76, 0x22, 0x7D] := by
    rw [hclose, hbuf2, hn2]
    decide
  refine ⟨?_, ?_, hclose, hbuf2, hn2, hbuf3, ?_⟩
  · rw [OpenNamespace_buf]
  · rw [OpenNamespace_openNamespaces]
  · rw [hbuf3]
    decide

/-! ## C6: the encoder's float append -/

/-- C6.  `appendFloat` first writes the element separator, then checks
the value: NaN produces the 5-byte quoted token `"NaN"`, +Infinity the
quoted `"+Inf"`, -Infinity the quoted `"-Inf"`, and a finite value the
numeric formatter's output unquoted; `AppendFloat64` and
`AppendFloat32` both route through `appendFloat` (with bit sizes 64 and
32 respectively). -/
theorem appendFloat_special_tokens (e : StackdriverEncoder) (v : GoFloat)
    (b : Nat) (d : List Nat) :
    AppendFloat64 e v = appendFloat e v 64 ∧
    AppendFloat32 e v = appendFloat e v 32 ∧
    (appendFloat e .nan b).buf =
      (addElementSeparator e).buf ++ [0x22, 0x4E, 0x61, 0x4E, 0x22] ∧
    (appendFloat e .posInf b).buf =
      (addElementSeparator e).buf ++ [0x22, 0x2B, 0x49, 0x6E, 0x66, 0x22] ∧
    (appendFloat e .negInf b).buf =
      (addElementSeparator e).buf ++ [0x22, 0x2D, 0x49, 0x6E, 0x66, 0x22] ∧
    (appendFloat e (.finite d) b).buf = (addElementSeparator e).buf ++ d :=
  ⟨rfl, rfl, rfl, rfl, rfl, rfl⟩

end StackdriverEncoder

/-! ## C7: the buffer's AppendFloat does not quote the special values -/

/-- C7 counterexample.  The buffer-level `MapBuffer.AppendFloat` on NaN
yields the three unquoted bytes `NaN`, not the quoted `"NaN"` the claim
states. -/
theorem buffer_appendFloat_quotes_counterexample :
    (MapBuffer.AppendFloat MapBuffer.newMapBuffer GoFloat.nan 64).bs =
      [0x4E, 0x61, 0x4E] ∧
    (MapBuffer.AppendFloat MapBuffer.newMapBuffer GoFloat.nan 64).bs ≠
      [0x22, 0x4E, 0x61, 0x4E, 0x22] := by
  decide

/-- C7 amended.  The buffer's `AppendFloat` appends the numeric
formatter's output unquoted in every case: `NaN` for NaN, `+Inf` for
+Infinity, `-Inf` for -Infinity (quoting of these tokens happens in the
encoder layer, not the buffer), and the formatter's digit bytes for a
finite value. -/
theorem buffer_appendFloat_unquoted_tokens (mb : MapBuffer) (b : Nat)
    (d : List Nat) :
    (mb.AppendFloat GoFloat.nan b).bs = mb.bs ++ [0x4E, 0x61, 0x4E] ∧
    (mb.AppendFloat GoFloat.posInf b).bs = mb.bs ++ [0x2B, 0x49, 0x6E, 0x66] ∧
    (mb.AppendFloat GoFloat.negInf b).bs = mb.bs ++ [0x2D, 0x49, 0x6E, 0x66] ∧
    (mb.AppendFloat (GoFloat.finite d) b).bs = mb.bs ++ d :=
  ⟨rfl, rfl, rfl, rfl⟩

/-! ## C5: Truncate's contract across the two buffer implementations -/

/-- C5.  The byte-slice `MapBuffer.Truncate` honours the contract on a
sample buffer holding `ab`: `Truncate 1` keeps exactly the first byte,
`Truncate 0` equals `Reset`, and `-1` and `3` fail fatally.  The
sync.Map variant violates it: with the same content `ab` (length 2),
`Truncate 1` succeeds but deletes every key, leaving length 0 instead
of the first byte. -/
theorem truncate_contract_eval :
    MapBuffer.Truncate ⟨[0x61, 0x62], 1024⟩ 1 = some ⟨[0x61], 1024⟩ ∧
    MapBuffer.Truncate ⟨[0x61, 0x62], 1024⟩ 0 =
      some (MapBuffer.Reset ⟨[0x61, 0x62], 1024⟩) ∧
    MapBuffer.Truncate ⟨[0x61, 0x62], 1024⟩ (-1) = none ∧
    MapBuffer.Truncate ⟨[0x61, 0x62], 1024⟩ 3 = none ∧
    (SyncMapBuffer.AppendString ⟨[]⟩ [0x61, 0x62]).Len = 2 ∧
    SyncMapBuffer.Truncate (SyncMapBuffer.AppendString ⟨[]⟩ [0x61, 0x62]) 1 =
      some ⟨[]⟩ ∧
    (SyncMapBuffer.Truncate (SyncMapBuffer.AppendString ⟨[]⟩ [0x61, 0x62]) 1).map
      SyncMapBuffer.Len = some 0 := by
  decide

/-! ## C8: pooled buffers come back empty with capacity retained -/

theorem runOps_cap_of_fits : ∀ (ops : List BufOp) (b : MapBuffer),
    b.cap = size → fitsCap b ops = true → (runOps b ops).cap = size := by
  intro ops
  induction ops with
  | nil =>
    intro b hc _
    simpa [runOps] using hc
  | cons op rest ih =>
    intro b hc hf
    unfold fitsCap at hf
    rw [Bool.and_eq_true] at hf
    obtain ⟨h1, h2⟩ := hf
    have hcap2 : (stepOp b op).cap = size := by
      cases op with
      | append xs =>
        have hlen : b.bs.length + xs.length ≤ size := by
          have h1' := of_decide_eq_true h1
          simpa [stepOp, MapBuffer.goAppend] using h1'
        show (b.goAppend xs).cap = size
        unfold MapBuffer.goAppend
        dsimp only
        rw [hc, if_pos hlen]
      | reset => exact hc
      | putGet => exact hc
    simpa [runOps] using ih (stepOp b op) hcap2 h2

/-- C8.  A buffer returned by `Get` always has length zero — whether it
is a freshly allocated `newMapBuffer` or an arbitrary previously-Put
buffer reset on checkout — with its capacity untouched; and over any
sequence of operations during which the content always fits in the
initial capacity, the capacity stays exactly `size` (no
reallocation). -/
theorem pool_get_empty_cap_preserved (bp : MapBuffer) (ops : List BufOp) :
    (MapBuffer.Get bp).Len = 0 ∧
    (MapBuffer.Get bp).Cap = bp.Cap ∧
    MapBuffer.newMapBuffer.Len = 0 ∧
    MapBuffer.newMapBuffer.Cap = size ∧
    (fitsCap MapBuffer.newMapBuffer ops = true →
      (runOps MapBuffer.newMapBuffer ops).Cap = size) := by
  refine ⟨rfl, rfl, rfl, rfl, fun hf => ?_⟩
  exact runOps_cap_of_fits ops MapBuffer.newMapBuffer rfl hf

/-- C8 witness: a concrete append/put-get/append cycle that stays within
the initial capacity keeps the capacity at `size`. -/
theorem pool_get_empty_cap_preserved_witness :
    fitsCap MapBuffer.newMapBuffer
      [BufOp.append [0x61, 0x62, 0x63], BufOp.putGet,
        BufOp.append (List.replicate 16 0x61)] = true ∧
    (runOps MapBuffer.newMapBuffer
      [BufOp.append [0x61, 0x62, 0x63], BufOp.putGet,
        BufOp.append (List.replicate 16 0x61)]).Cap = size :=
  ⟨by decide,
    (pool_get_empty_cap_preserved MapBuffer.newMapBuffer
      [BufOp.append [0x61, 0x62, 0x63], BufOp.putGet,
        BufOp.append (List.replicate 16 0x61)]).2.2.2.2 (by decide)⟩

/-! ## C10: the sync.Map variant overwrites instead of concatenating -/

theorem smStore_overwrite (m : List (Nat × SMVal)) (k : Nat) (v1 v2 : SMVal) :
    smStore (smStore m k v1) k v2 = smStore m k v2 := by
  induction m with
  | nil => simp [smStore]
  | cons p rest ih =>
    by_cases hp : p.1 = k
    · simp [smStore, hp]
    · simp [smStore, hp, ih]

/-- C10.  In the sync.Map buffer, two successive `AppendString` calls
store under the single key `keyString`, so the second overwrites the
first instead of concatenating: from any state the double append equals
the single append of the second string, and from an empty buffer the
resulting content is exactly the second string. -/
theorem syncmap_appendString_overwrites (mb : SyncMapBuffer) (a b : List Nat) :
    (mb.AppendString a).AppendString b = mb.AppendString b ∧
    (((SyncMapBuffer.mk []).AppendString a).AppendString b).Bytes = b := by
  constructor
  · show SyncMapBuffer.mk
        (smStore (smStore mb.m keyString (.bytesV a)) keyString (.bytesV b)) = _
    rw [smStore_overwrite]
    rfl
  · show (SyncMapBuffer.mk
        (smStore (smStore [] keyString (.bytesV a)) keyString (.bytesV b))).Bytes = b
    rw [smStore_overwrite]
    simp [SyncMapBuffer.Bytes, smStore, smValBytes]

/-! ## C9: the field-dropping extractCtx variant -/

/-- C9.  In the entry-assembly variant whose field-preserving append is
commented out: with an empty persistent context `extractCtx` returns
the input fields unchanged (and no context); with a non-empty persistent
context every successful call returns an empty field list — all fields
whose keys are not the recognized context keys are silently dropped. -/
theorem extractCtx_drops_fields (ectx : Option LogContext)
    (fields : List LogField) :
    ((cloneCtx ectx).IsEmpty = true → extractCtx ectx fields = some (fields, none)) ∧
    (∀ out c, (cloneCtx ectx).IsEmpty = false →
      extractCtx ectx fields = some (out, c) → out = []) := by
  constructor
  · intro hemp
    unfold extractCtx
    rw [if_pos hemp]
  · intro out c hne heq
    unfold extractCtx at heq
    rw [if_neg (by simp [hne])] at heq
    cases hfold : fields.foldlM extractCtxStep (cloneCtx ectx) with
    | none =>
      rw [hfold, Option.map_none'] at heq
      exact Option.noConfusion heq
    | some lc2 =>
      rw [hfold, Option.map_some'] at heq
      injection heq with h
      exact (congrArg Prod.fst h).symm

/-- C9 witness: a persistent context with a user set and a single field
with an unrecognized key — the field is dropped. -/
theorem extractCtx_drops_fields_witness :
    (cloneCtx (some ⟨"alice", none, none⟩)).IsEmpty = false ∧
    extractCtx (some ⟨"alice", none, none⟩) [⟨"foo", "bar", FieldValue.other⟩] =
      some ([], some ⟨"alice", none, none⟩) ∧
    ([] : List LogField) = [] := by
  refine ⟨rfl, rfl, ?_⟩
  exact (extractCtx_drops_fields (some ⟨"alice", none, none⟩)
    [⟨"foo", "bar", FieldValue.other⟩]).2 [] (some ⟨"alice", none, none⟩) rfl rfl

end ZapEncoder


